import Mathlib

/-!
# Verification of the ramsql transactional engine core

Shallow embedding of `engine/agnostic/transaction.go` and
`engine/agnostic/relation.go` (package `agnostic`), together with the
parts of the data model those files use.  Pure functions of the source
become Lean functions; the stateful transaction methods become explicit
state-passing functions over an `Engine` and a `Transaction` value.

Parts of the repository that the two source files reference but that are
not themselves available (`Index` internals, the engine-level
`createRelation`/`dropRelation`, `rollbackValueChange` /
`rollbackRelationChange`, value conversion) are modelled from the
specification; each such definition carries a doc comment starting with
`Modelled from the spec:`.
-/

namespace Agnostic

/-- Modelled from the spec: the domain tag of a column ("a type-kind
identifier sufficient to decide convertibility of an incoming value").
The Go code stores a `reflect.Type` (`typeInstance`); only int-like and
text-like domains appear in the repository's tests. -/
inductive Kind where
  | kInt
  | kStr
deriving DecidableEq, Repr

/-- Modelled from the spec: a runtime value, carrying its kind. -/
inductive Val where
  | int (n : Int)
  | str (s : String)
deriving DecidableEq, Repr

/-- The kind of a value (`reflect.TypeOf(val)` in the Go code). -/
def Val.kind : Val → Kind
  | .int _ => .kInt
  | .str _ => .kStr

/-- Modelled from the spec: `reflect.Type.ConvertibleTo` restricted to the
spec's stated policy ("type coercion policy beyond same-kind
convertibility" is out of scope), so a value is convertible to a domain
exactly when the kinds coincide, and conversion is the identity. -/
def convertible (k k' : Kind) : Bool :=
  k == k'

/-- A tuple is an ordered sequence of values (`Tuple` in the Go code,
built with `Append`). -/
abbrev Tuple := List Val

/-- `Attribute` of the data model.  `defaultValue` is a nullary provider
in Go; modelled as the value it returns.  `typeInstance` is modelled by
`domain`. -/
structure Attribute where
  name : String
  domain : Kind
  defaultValue : Option Val
  autoIncrement : Bool
  nextValue : Int
  unique : Bool
deriving DecidableEq, Repr

/-- Predicate leaf operators (only the ones exercised here). -/
inductive PredOp where
  | peq
  | plt
deriving DecidableEq, Repr

/-- The algebraic predicate tree.  Leaves carry
`(relation, attribute, operator, value)`; internal nodes are
`AND`/`OR`/`NOT`. -/
inductive Predicate where
  | leaf (relation attrName : String) (op : PredOp) (value : Val)
  | pand (l r : Predicate)
  | por (l r : Predicate)
  | pnot (p : Predicate)
deriving DecidableEq, Repr

/-- `Predicate.Relation()`: a leaf names the relation it constrains;
internal nodes answer the empty string. -/
def Predicate.relation : Predicate → String
  | .leaf rel _ _ _ => rel
  | _ => ""

/-- Modelled from the spec: the `Index` descriptor — name, subject
relation, indexed attribute names and positions, plus the tuples
currently held (the associative content of the Go hash index). -/
structure Index where
  name : String
  relation : String
  attrs : List String
  positions : List Nat
  content : List Tuple
deriving DecidableEq, Repr

/-- Modelled from the spec: `Index.Add(tuple)` records the tuple. -/
def Index.add (i : Index) (t : Tuple) : Index :=
  { i with content := i.content ++ [t] }

/-- Modelled from the spec: `Index.Remove(tuple)` removes the most
recently added occurrence of the tuple (the Go code removes by pointer
identity, so an insert-then-rollback removes exactly the tuple the
insert added). -/
def Index.removeTuple (i : Index) (t : Tuple) : Index :=
  { i with content := (i.content.reverse.erase t).reverse }

/-- Modelled from the spec: `CanSourceWith(predicate) → (bool, cost)`.
"A hash index is applicable only when the predicate is ... an equality
on the indexed attribute set", and a "hash-equal probe returns cost 1".
(The "contains as a conjunct" part is handled by the caller
`recCanUseIndex`, which is in the source.) -/
def Index.canSourceWith (i : Index) : Predicate → Bool × Int
  | .leaf rel attr .peq _ =>
    if rel = i.relation ∧ i.attrs = [attr] then (true, 1) else (false, 0)
  | _ => (false, 0)

/-- Modelled from the spec: `NewHashIndex` builds an empty hash index
descriptor for the given relation and attribute subset. -/
def NewHashIndex (name relName : String) (_attributes : List Attribute)
    (attrNames : List String) (positions : List Nat) : Index :=
  { name := name, relation := relName, attrs := attrNames,
    positions := positions, content := [] }

/-- `Relation` from `relation.go`: name, parent schema, ordered
attribute list, ordered tuple sequence, indexes.  (The `sync.RWMutex`
and the derived `attrIndex` map carry no data-model state and are not
embedded; the lock set lives on the transaction.) -/
structure Relation where
  name : String
  schema : String
  attributes : List Attribute
  pk : List Nat
  rows : List Tuple
  indexes : List Index
deriving DecidableEq, Repr

/-- Position of an attribute name in an attribute list
(`r.attrIndex[k]`; a missing key yields Go's zero value 0). -/
def attrPos (attributes : List Attribute) (k : String) : Nat :=
  (attributes.findIdx? (fun a => a.name = k)).getD 0

/-- `NewRelation` from `relation.go`: records the attributes, computes
primary-key positions, auto-creates a hash index over the primary key
(when declared) and one hash index per unique attribute. -/
def NewRelation (schema name : String) (attributes : List Attribute)
    (pk : List String) : Relation :=
  let pkIdx := pk.map (attrPos attributes)
  let pkIndexes :=
    if pkIdx ≠ [] then
      [NewHashIndex ("pk_" ++ schema ++ "_" ++ name) name attributes pk pkIdx]
    else []
  let uniqueIndexes :=
    (attributes.enum.filter (fun p => p.2.unique)).map (fun p =>
      NewHashIndex ("unique_" ++ schema ++ "_" ++ name ++ "_" ++ p.2.name)
        name attributes [p.2.name] [p.1])
  { name := name, schema := schema, attributes := attributes,
    pk := pkIdx, rows := [], indexes := pkIndexes ++ uniqueIndexes }

/-- `Schema`: a named namespace of relations (the Go
`map[string]*Relation` is embedded as an ordered association list with
first-match lookup). -/
structure Schema where
  name : String
  relations : List Relation
deriving DecidableEq, Repr

/-- `Engine`: mapping from schema name to schema. -/
structure Engine where
  schemas : List Schema
deriving DecidableEq, Repr

/-- Error kinds of §7, as produced by the embedded operations.
`terminated` is the wrapping performed by `Transaction.aborted()`
("transaction aborted due to previous error: %w"); `committed` is the
latch `Commit` installs ("transaction committed"). -/
inductive Err where
  | schemaMissing (name : String)
  | relationMissing (name : String)
  | duplicateRelation (name : String)
  | domainMismatch (rel attr : String)
  | missingValue (rel attr : String)
  | attributeMissing (attr rel : String)
  | nilPredicate
  | joinScannerMissing (name : String)
  | noJoinManyScan (n : Nat)
  | committed
  | terminated (cause : Err)
deriving DecidableEq, Repr

def Engine.findSchema (e : Engine) (n : String) : Option Schema :=
  e.schemas.find? (fun s => s.name = n)

def Schema.findRel (s : Schema) (n : String) : Option Relation :=
  s.relations.find? (fun r => r.name = n)

/-- Update the first relation named `n` (the Go map holds one relation
per name). -/
def updateFirstRel (n : String) (f : Relation → Relation) :
    List Relation → List Relation
  | [] => []
  | r :: rs => if r.name = n then f r :: rs else r :: updateFirstRel n f rs

/-- Update the first schema named `n`. -/
def updateFirstSch (n : String) (f : Schema → Schema) :
    List Schema → List Schema
  | [] => []
  | s :: ss => if s.name = n then f s :: ss else s :: updateFirstSch n f ss

def Engine.updateRel (e : Engine) (sch rel : String)
    (f : Relation → Relation) : Engine :=
  { schemas := updateFirstSch sch
      (fun s => { s with relations := updateFirstRel rel f s.relations })
      e.schemas }

/-- Remove the first relation named `n` from a relation list. -/
def eraseFirstRel (n : String) : List Relation → List Relation
  | [] => []
  | r :: rs => if r.name = n then rs else r :: eraseFirstRel n rs

def Engine.removeRel (e : Engine) (sch rel : String) : Engine :=
  { schemas := updateFirstSch sch
      (fun s => { s with relations := eraseFirstRel rel s.relations })
      e.schemas }

def Engine.addRel (e : Engine) (sch : String) (r : Relation) : Engine :=
  { schemas := updateFirstSch sch
      (fun s => { s with relations := s.relations ++ [r] }) e.schemas }

/-- Modelled from the spec: the engine-level `createRelation` used by
`Transaction.CreateRelation` — errors are missing schema and duplicate
name; on success the new relation (built by `NewRelation`) is installed
and returned. -/
def Engine.createRelation (e : Engine) (sch rel : String)
    (attributes : List Attribute) (pk : List String) :
    Except Err (Engine × Relation) :=
  match e.findSchema sch with
  | none => .error (.schemaMissing sch)
  | some s =>
    match s.findRel rel with
    | some _ => .error (.duplicateRelation rel)
    | none =>
      let r := NewRelation sch rel attributes pk
      .ok (e.addRel sch r, r)

/-- Modelled from the spec: the engine-level `dropRelation` — errors are
missing schema and missing relation; on success the relation is removed
and the removed relation returned. -/
def Engine.dropRelation (e : Engine) (sch rel : String) :
    Except Err (Engine × Relation) :=
  match e.findSchema sch with
  | none => .error (.schemaMissing sch)
  | some s =>
    match s.findRel rel with
    | none => .error (.relationMissing rel)
    | some r => .ok (e.removeRel sch rel, r)

/-- A change-log entry.  `valueChange sch rel tup pos` is the
`ValueChange{current:e, old:nil, l:rows}` an `Insert` pushes: the tuple
and the row-list position at which it was appended.
`relationChange sch cur old` is `RelationChange{schema, current, old}`
(`old = none` represents a create, `cur = none` a drop). -/
inductive Change where
  | valueChange (sch rel : String) (tup : Tuple) (pos : Nat)
  | relationChange (sch : String) (cur old : Option Relation)
deriving DecidableEq, Repr

/-- The relation names a change touches. -/
def Change.touched : Change → List String
  | .valueChange _ rel _ _ => [rel]
  | .relationChange _ (some r) _ => [r.name]
  | .relationChange _ none (some r) => [r.name]
  | .relationChange _ none none => []

/-- `Transaction`: lock set (the Go `map[string]*Relation` keyed by
relation name, embedded as the list of locked names), change log
(`container/list` of `Change`, `PushBack` = append), and the error
latch `err`. -/
structure Transaction where
  locks : List String
  changes : List Change
  err : Option Err
deriving DecidableEq, Repr

/-- `NewTransaction`: empty lock set, empty change log, no latch. -/
def NewTransaction : Transaction :=
  { locks := [], changes := [], err := none }

/-- `Transaction.aborted()`: when the latch is set, the wrapped error
"transaction aborted due to previous error: %w". -/
def Transaction.aborted (t : Transaction) : Option Err :=
  match t.err with
  | some c => some (.terminated c)
  | none => none

/-- `Transaction.lock(r)`: idempotent per-transaction lock acquisition
("Lock relations if not already done"). -/
def Transaction.lock (t : Transaction) (relName : String) : Transaction :=
  if relName ∈ t.locks then t
  else { t with locks := t.locks ++ [relName] }

/-- Undo a single change-log entry.  Modelled from the spec for the
missing `rollbackValueChange` / `rollbackRelationChange`: "restore tuple
to its old position in the row list and old index state; re-create a
dropped relation or drop a created one". -/
def undo (e : Engine) : Change → Engine
  | .valueChange sch rel tup pos =>
    e.updateRel sch rel (fun r =>
      { r with rows := r.rows.eraseIdx pos,
               indexes := r.indexes.map (fun i => i.removeTuple tup) })
  | .relationChange sch (some r) none => e.removeRel sch r.name
  | .relationChange sch none (some r) => e.addRel sch r
  | .relationChange sch (some cur) (some old) =>
    e.updateRel sch cur.name (fun _ => old)
  | .relationChange _ none none => e

/-- Iterate the change log in reverse insertion order, undoing each
entry (`Rollback`'s loop consuming `changes.Back()`). -/
def undoAllRev (e : Engine) (cs : List Change) : Engine :=
  cs.reverse.foldl undo e

/-- `Transaction.Rollback()`: a no-op when the latch is set; otherwise
undo the change log in reverse insertion order, drop it, and release all
locks.  Note the source sets no error latch here. -/
def rollback (e : Engine) (t : Transaction) : Engine × Transaction :=
  match t.aborted with
  | some _ => (e, t)
  | none => (undoAllRev e t.changes, { t with changes := [], locks := [] })

deriving instance DecidableEq for Except

/-- Result of `Commit`. -/
structure CommitResult where
  out : Except Err Nat
  tx : Transaction
deriving DecidableEq, Repr

/-- `Transaction.Commit()`: fails with the wrapped latch if set;
otherwise returns the number of change entries, drops the change log,
releases all locks, and latches "transaction committed". -/
def commit (t : Transaction) : CommitResult :=
  match t.aborted with
  | some err => ⟨.error err, t⟩
  | none =>
    ⟨.ok t.changes.length,
     { t with changes := [], locks := [], err := some .committed }⟩

/-- `Transaction.abort(err)`: rollback, then latch the cause. -/
def abortT (e : Engine) (t : Transaction) (err : Err) :
    Engine × Transaction :=
  let p := rollback e t
  (p.1, { p.2 with err := some err })

/-- Lookup of a key in the supplied values map (`values[attr.name]`;
the Go map is embedded as an association list, first match). -/
def kLookup : List (String × Val) → String → Option Val
  | [], _ => none
  | p :: ps, k => if p.1 = k then some p.2 else kLookup ps k

/-- `delete(values, attr.name)`: remove the key from the map. -/
def eraseKey : List (String × Val) → String → List (String × Val)
  | [], _ => []
  | p :: ps, k => if p.1 = k then eraseKey ps k else p :: eraseKey ps k

/-- The per-attribute tuple-building loop of `Transaction.Insert`
(transaction.go, lines 189-220).  For each declared attribute in
declaration order: a supplied value is domain-checked (failing with the
"cannot assign ..." error), stored and consumed; an unsupplied
attribute takes its default, else its autoincrement counter (which is
incremented in place, persisting even across a later failure), else the
"no value for ..." error.  Returns the attribute list (with counter
updates applied up to the point reached), the remaining values map and
either the built tuple or the error. -/
def buildTuple (relName : String) :
    List Attribute → List (String × Val) →
    List Attribute × List (String × Val) × Except Err Tuple
  | [], values => ([], values, .ok [])
  | a :: as, values =>
    match kLookup values a.name with
    | none =>
      match a.defaultValue with
      | some d =>
        let r := buildTuple relName as values
        (a :: r.1, r.2.1, r.2.2.map (d :: ·))
      | none =>
        if a.autoIncrement then
          let r := buildTuple relName as values
          ({ a with nextValue := a.nextValue + 1 } :: r.1, r.2.1,
           r.2.2.map (Val.int a.nextValue :: ·))
        else
          (a :: as, values, .error (.missingValue relName a.name))
    | some v =>
      if convertible v.kind a.domain then
        let r := buildTuple relName as (eraseKey values a.name)
        (a :: r.1, r.2.1, r.2.2.map (v :: ·))
      else
        (a :: as, values, .error (.domainMismatch relName a.name))

/-- Result of `Insert`: resulting engine, transaction, the caller's
values map as the (mutating) call leaves it, and the built tuple or
error. -/
structure InsertResult where
  eng : Engine
  tx : Transaction
  vals : List (String × Val)
  out : Except Err Tuple
deriving DecidableEq, Repr

/-- `Transaction.Insert(schema, relation, values)` (transaction.go,
lines 173-247): latched-error check; schema and relation lookup (abort
on failure); lock the relation; build the tuple with `buildTuple`
(abort on failure, counter increments surviving); any remaining key in
the values map is a non-existing attribute (abort); otherwise append
the tuple to the row list, add it to every index, and push a
`ValueChange`. -/
def insert (e : Engine) (t : Transaction) (sch rel : String)
    (values : List (String × Val)) : InsertResult :=
  match t.aborted with
  | some err => ⟨e, t, values, .error err⟩
  | none =>
    match e.findSchema sch with
    | none =>
      let p := abortT e t (.schemaMissing sch)
      ⟨p.1, p.2, values, .error (.schemaMissing sch)⟩
    | some s =>
      match s.findRel rel with
      | none =>
        let p := abortT e t (.relationMissing rel)
        ⟨p.1, p.2, values, .error (.relationMissing rel)⟩
      | some r =>
        let t₁ := t.lock rel
        match buildTuple rel r.attributes values with
        | (attrs', vals', .error err) =>
          let e₁ := e.updateRel sch rel
            (fun r₀ => { r₀ with attributes := attrs' })
          let p := abortT e₁ t₁ err
          ⟨p.1, p.2, vals', .error err⟩
        | (attrs', vals', .ok tup) =>
          match vals' with
          | (k, v) :: rest =>
            let e₁ := e.updateRel sch rel
              (fun r₀ => { r₀ with attributes := attrs' })
            let p := abortT e₁ t₁ (.attributeMissing k rel)
            ⟨p.1, p.2, (k, v) :: rest, .error (.attributeMissing k rel)⟩
          | [] =>
            let e₁ := e.updateRel sch rel (fun r₀ =>
              { r₀ with attributes := attrs',
                        rows := r₀.rows ++ [tup],
                        indexes := r₀.indexes.map (fun i => i.add tup) })
            let c := Change.valueChange sch rel tup r.rows.length
            ⟨e₁, { t₁ with changes := t₁.changes ++ [c] }, [], .ok tup⟩

/-- Result of a schema-mutating transaction operation. -/
structure OpResult where
  eng : Engine
  tx : Transaction
  out : Except Err Unit
deriving DecidableEq, Repr

/-- `Transaction.CreateRelation` (transaction.go, lines 120-139):
latched-error check; engine-level create (abort on failure); push a
`RelationChange{current:r, old:nil}`; lock the new relation. -/
def createRelation (e : Engine) (t : Transaction) (sch rel : String)
    (attributes : List Attribute) (pk : List String) : OpResult :=
  match t.aborted with
  | some err => ⟨e, t, .error err⟩
  | none =>
    match e.createRelation sch rel attributes pk with
    | .error err =>
      let p := abortT e t err
      ⟨p.1, p.2, .error err⟩
    | .ok (e₁, r) =>
      let t₁ := { t with
        changes := t.changes ++ [Change.relationChange sch (some r) none] }
      ⟨e₁, t₁.lock r.name, .ok ()⟩

/-- `Transaction.DropRelation` (transaction.go, lines 141-159):
latched-error check; engine-level drop (abort on failure); push a
`RelationChange{current:nil, old:r}`.  Note the source acquires no lock
on the dropped relation. -/
def dropRelation (e : Engine) (t : Transaction) (sch rel : String) :
    OpResult :=
  match t.aborted with
  | some err => ⟨e, t, .error err⟩
  | none =>
    match e.dropRelation sch rel with
    | .error err =>
      let p := abortT e t err
      ⟨p.1, p.2, .error err⟩
    | .ok (e₁, r) =>
      ⟨e₁, { t with
        changes := t.changes ++ [Change.relationChange sch none (some r)] },
       .ok ()⟩

/-- A physical row producer chosen by the planner: an index probe
(`NewHashIndexSource(index, p)`, with the sub-predicate that matched)
or a sequential scan over the relation (`NewSeqScan(r)`). -/
inductive Source where
  | hashIndexSource (idx : Index) (p : Predicate)
  | seqScan (r : Relation)
deriving DecidableEq, Repr

/-- `recCanUseIndex` (transaction.go, lines 432-452): try
`CanSourceWith` on the whole predicate, then recurse into the left and
the right child, returning the first applicable sub-predicate with its
cost. -/
def recCanUseIndex (relName : String) (idx : Index) (p : Predicate) :
    Int × Bool × Option Predicate :=
  let c := idx.canSourceWith p
  if c.1 then (c.2, true, some p)
  else
    match p with
    | .leaf .. => (0, false, none)
    | .pand l r | .por l r =>
      let cl := recCanUseIndex relName idx l
      if cl.2.1 then cl
      else
        let cr := recCanUseIndex relName idx r
        if cr.2.1 then cr else (0, false, none)
    | .pnot q =>
      let cq := recCanUseIndex relName idx q
      if cq.2.1 then cq else (0, false, none)

/-- The inner index loop of `Query`'s sourcing step (transaction.go,
lines 298-313): walk the relation's indexes in declaration order,
keeping the latest index whose cost passes
`ok && (sourceCost == 0 || cost < sourceCost)` and updating
`sourceCost` accordingly.  `sourceCost` is the running threshold the
caller threads through — in the source it is declared once for the
whole query, outside the relation loop. -/
def pickIndex (rname : String) (p : Predicate) (idxs : List Index)
    (chosen : Option (Index × Predicate)) (sourceCost : Int) :
    Option (Index × Predicate) × Int :=
  match idxs with
  | [] => (chosen, sourceCost)
  | i :: rest =>
    let c := recCanUseIndex rname i p
    if c.2.1 && (sourceCost == 0 || c.1 < sourceCost) then
      pickIndex rname p rest (some (i, (c.2.2).getD p)) c.1
    else
      pickIndex rname p rest chosen sourceCost

/-- The sourcing step of `Query` (transaction.go, lines 293-318): for
each relation in iteration order, run the index loop with the shared
`sourceCost` threshold; an applicable pick becomes a
`NewHashIndexSource`, otherwise the relation falls back to
`NewSeqScan`.  The Go relation set is a map, so the iteration order is
an input here. -/
def chooseSources : List Relation → Predicate → Int →
    List (String × Source)
  | [], _, _ => []
  | r :: rs, p, sourceCost =>
    let pick := pickIndex r.name p r.indexes none sourceCost
    let src := match pick.1 with
      | some ic => Source.hashIndexSource ic.1 ic.2
      | none => Source.seqScan r
    (r.name, src) :: chooseSources rs p pick.2

/-- Entry point of the sourcing step: `var sourceCost int64` starts at
zero for the query. -/
def planSources (rels : List Relation) (p : Predicate) :
    List (String × Source) :=
  chooseSources rels p 0

/-! ## The Query pipeline

`Transaction.Query` (transaction.go, lines 263-384): latch gate, lock
discovery over the predicate tree and the selectors, sourcing, scanner
construction, joiner ordering and tree assembly, projection, then
execution.  The `relations` set is a Go map whose iteration order is
unspecified; the embedding keeps it as an association list in insertion
order (the order-dependence of the sourcing step is stated over
`chooseSources`, which takes the order as an input). -/

/-- Modelled from the spec: a `Selector` names its subject relation and
the projected attribute.  (Aggregates such as `COUNT` are projection
descriptors too; no claim exercises their folding, which is therefore
not modelled.) -/
structure Selector where
  relation : String
  attrName : String
deriving DecidableEq, Repr

/-- Modelled from the spec: a `Joiner` descriptor — left and right
relation names and the join predicate.  Its mutable child nodes are
assigned during planning (`SetLeft`/`SetRight`); the embedding carries
them separately in `JoinerNodeState`. -/
structure Joiner where
  leftRel : String
  rightRel : String
  pred : Predicate
deriving DecidableEq, Repr

/-- An executor node: Scanner, Joiner or SelectorNode (spec §4.7; the
node types are not under src/, their wiring in `Query` is). -/
inductive Node where
  | scanNode (r : Relation) (src : Source) (preds : List Predicate)
  | joinNode (pred : Predicate) (left : Node) (right : Node)
  | selNode (selectors : List Selector) (child : Node)
deriving DecidableEq, Repr

instance : Inhabited Node :=
  ⟨.scanNode ⟨"", "", [], [], [], []⟩ (.seqScan ⟨"", "", [], [], [], []⟩) []⟩

/-- The lock-set effect of `t.lock(r)`: `lock` touches only the lock
map, so the recursive lock discovery is embedded over the lock set. -/
def lockName (locks : List String) (n : String) : List String :=
  if n ∈ locks then locks else locks ++ [n]

/-- `relations[rel] = r`: the Go map assignment.  A repeated key would
be overwritten with an identical value (it is looked up from the same
schema), so the embedding keeps the first entry, preserving both the
content and the insertion order. -/
def mapInsert (rels : List (String × Relation)) (n : String)
    (r : Relation) : List (String × Relation) :=
  if rels.any (fun pr => pr.1 = n) then rels else rels ++ [(n, r)]

/-- `recLock` (transaction.go, lines 400-430): walk the predicate tree;
at every node whose `Relation()` is non-empty look the relation up
(failing with the missing-relation error), record it and lock it; then
recurse into the left and the right child. -/
def recLock (e : Engine) (sch : String) (p : Predicate)
    (locks : List String) (rels : List (String × Relation)) :
    Except Err (List String × List (String × Relation)) :=
  match e.findSchema sch with
  | none => .error (.schemaMissing sch)
  | some s =>
    let step : Except Err (List String × List (String × Relation)) :=
      if p.relation ≠ "" then
        match s.findRel p.relation with
        | none => .error (.relationMissing p.relation)
        | some r =>
          .ok (lockName locks p.relation, mapInsert rels p.relation r)
      else .ok (locks, rels)
    match step with
    | .error err => .error err
    | .ok (locks₁, rels₁) =>
      match p with
      | .leaf .. => .ok (locks₁, rels₁)
      | .pand l r | .por l r =>
        match recLock e sch l locks₁ rels₁ with
        | .error err => .error err
        | .ok (locks₂, rels₂) => recLock e sch r locks₂ rels₂
      | .pnot q => recLock e sch q locks₁ rels₁

/-- The selector loop of `Query`'s lock step (transaction.go, lines
283-291): look each selector's relation up (failing with the
missing-relation error), lock it and record it. -/
def lockSelectors (s : Schema) : List Selector → List String →
    List (String × Relation) →
    Except Err (List String × List (String × Relation))
  | [], locks, rels => .ok (locks, rels)
  | sel :: rest, locks, rels =>
    match s.findRel sel.relation with
    | none => .error (.relationMissing sel.relation)
    | some r =>
      lockSelectors s rest (lockName locks sel.relation)
        (mapInsert rels sel.relation r)

/-- `recAppendPredicates` (transaction.go, lines 386-398): the
predicates appended to a relation's scanner — a node constraining the
relation stops the recursion, otherwise both children are walked. -/
def recAppendPredicates (rname : String) (p : Predicate) :
    List Predicate :=
  if p.relation = rname then [p]
  else
    match p with
    | .leaf .. => []
    | .pand l r | .por l r =>
      recAppendPredicates rname l ++ recAppendPredicates rname r
    | .pnot q => recAppendPredicates rname q

/-- Modelled from the spec: a Source's estimated cardinality — a
hash-equal probe returns 1, a sequential scan the row count. -/
def Source.estimate : Source → Int
  | .seqScan r => r.rows.length
  | .hashIndexSource _ _ => 1

/-- Modelled from the spec: `EstimateCardinal()` per node — a scanner
estimates through its source, a joiner as the product of its children
(`|left| × |right| × selectivity` with the constant selectivity
factored out, which leaves the sort order unchanged), a selector node
passes through. -/
def Node.estimateCardinal : Node → Int
  | .scanNode _ src _ => src.estimate
  | .joinNode _ l r => l.estimateCardinal * r.estimateCardinal
  | .selNode _ c => c.estimateCardinal

/-- The estimate of a joiner before tree assembly: both children are
the scanners assigned to its relation names. -/
def joinerEst (scanners : List (String × Node)) (j : Joiner) : Int :=
  (match scanners.lookup j.leftRel with
   | some n => n.estimateCardinal
   | none => 0) *
  (match scanners.lookup j.rightRel with
   | some n => n.estimateCardinal
   | none => 0)

/-- Modelled from the spec: `sort.Sort(Joiners(joiners))` sorts the
joiners by ascending estimated cardinal (`Joiners.Less` is not under
src/; `sort.Sort` guarantees no stability, the model is a plain
insertion sort). -/
def insertSorted (est : Joiner → Int) (j : Joiner) :
    List Joiner → List Joiner
  | [] => [j]
  | x :: xs =>
    if est j ≤ est x then j :: x :: xs else x :: insertSorted est j xs

def sortJoiners (est : Joiner → Int) (l : List Joiner) : List Joiner :=
  l.foldr (insertSorted est) []

/-- The scanner-existence check of the joiner loop (transaction.go,
lines 329-340): the first joiner whose left (then right) relation has
no scanner aborts the query. -/
def checkJoiners (scanners : List (String × Node)) :
    List Joiner → Except Err Unit
  | [] => .ok ()
  | j :: rest =>
    if (scanners.lookup j.leftRel).isNone then
      .error (.joinScannerMissing j.leftRel)
    else if (scanners.lookup j.rightRel).isNone then
      .error (.joinScannerMissing j.rightRel)
    else checkJoiners scanners rest

/-- A joiner child before materialisation: the scanner of a relation,
or an earlier joiner (the Go code stores node pointers; the embedding
stores the index into the sorted joiner list, which is always smaller
than the referring joiner's own index). -/
inductive JChild where
  | scanRef (name : String)
  | joinRef (i : Nat)
deriving DecidableEq, Repr

structure JoinerNodeState where
  j : Joiner
  left : JChild
  right : JChild
deriving DecidableEq, Repr

/-- The `seen`-map loop of `Query` (transaction.go, lines 343-358): a
relation not seen yet makes the current joiner its subtree (the child
stays the scanner); a seen relation's subtree replaces the child. -/
def assignJoinTree : List Joiner → Nat → List (String × JChild) →
    List JoinerNodeState → List JoinerNodeState
  | [], _, _, acc => acc
  | j :: rest, i, seen, acc =>
    let stepL : JChild × List (String × JChild) :=
      match seen.lookup j.leftRel with
      | none => (.scanRef j.leftRel, seen ++ [(j.leftRel, .joinRef i)])
      | some c => (c, seen)
    let stepR : JChild × List (String × JChild) :=
      match stepL.2.lookup j.rightRel with
      | none =>
        (.scanRef j.rightRel, stepL.2 ++ [(j.rightRel, .joinRef i)])
      | some c => (c, stepL.2)
    assignJoinTree rest (i + 1) stepR.2 (acc ++ [⟨j, stepL.1, stepR.1⟩])

/-- Materialise the joiner states into nodes; a `joinRef` always points
to an earlier index, so a single forward pass suffices (the defaults
are unreachable for states produced by `assignJoinTree` over checked
joiners). -/
def resolveChild (scanners : List (String × Node)) (built : List Node) :
    JChild → Node
  | .scanRef n => (scanners.lookup n).getD default
  | .joinRef i => built.getD i default

def buildJoinNodes (scanners : List (String × Node))
    (states : List JoinerNodeState) : List Node :=
  states.foldl (fun built st =>
    built ++ [Node.joinNode st.j.pred
      (resolveChild scanners built st.left)
      (resolveChild scanners built st.right)]) []

/-- Steps (2)-(4) of `Query` plus the projection wrapper, over a given
iteration order of the locked relations: sourcing with the shared
`sourceCost`, scanner construction with the appended predicates,
joiner checking, ordering and tree assembly, and the `SelectorNode`
root.  With no joiners, a single scanner is the root, anything else is
the "no join, but got n scan" planning error. -/
def planQuery (rels : List (String × Relation))
    (selectors : List Selector) (p : Predicate)
    (joiners : List Joiner) : Except Err Node :=
  let sources := chooseSources (rels.map (fun pr => pr.2)) p 0
  let scanners : List (String × Node) := rels.map (fun pr =>
    (pr.1, Node.scanNode pr.2
      ((sources.lookup pr.1).getD (Source.seqScan pr.2))
      (recAppendPredicates pr.1 p)))
  match checkJoiners scanners joiners with
  | .error err => .error err
  | .ok _ =>
    let sorted := sortJoiners (joinerEst scanners) joiners
    let jnodes := buildJoinNodes scanners (assignJoinTree sorted 0 [] [])
    match jnodes.getLast? with
    | some head => .ok (.selNode selectors head)
    | none =>
      match scanners with
      | [sc] => .ok (.selNode selectors sc.2)
      | _ => .error (.noJoinManyScan scanners.length)

/-- Modelled from the spec: comparison at a predicate leaf. -/
def evalOp (op : PredOp) (w v : Val) : Bool :=
  match op with
  | .peq => w == v
  | .plt =>
    match w, v with
    | .int a, .int b => a < b
    | .str a, .str b => a < b
    | _, _ => false

/-- Modelled from the spec: evaluate a predicate against a tuple whose
columns are named by `cols`. -/
def evalPredNamed (cols : List String) (p : Predicate) (tu : Tuple) :
    Bool :=
  match p with
  | .leaf _ attr op v =>
    (match cols.findIdx? (fun c => c = attr) with
     | none => false
     | some i =>
       match tu[i]? with
       | none => false
       | some w => evalOp op w v)
  | .pand l r => evalPredNamed cols l tu && evalPredNamed cols r tu
  | .por l r => evalPredNamed cols l tu || evalPredNamed cols r tu
  | .pnot q => !evalPredNamed cols q tu

/-- Modelled from the spec: the rows a Source produces — a sequential
scan yields the relation's row list, a hash probe the index entries
matching the equality (`Lookup(predicate)`). -/
def Source.sourceRows : Source → List Tuple
  | .seqScan r => r.rows
  | .hashIndexSource idx p =>
    match idx.positions, p with
    | [i], .leaf _ _ .peq v =>
      idx.content.filter (fun tu => tu[i]? == some v)
    | _, _ => idx.content

/-- Column positions of the selectors, failing with the
attribute-missing error on an unknown projection column (scenario S5
of the spec). -/
def selPositions (cols : List String) :
    List Selector → Except Err (List Nat)
  | [] => .ok []
  | s :: ss =>
    match cols.findIdx? (fun c => c = s.attrName) with
    | none => .error (.attributeMissing s.attrName s.relation)
    | some i => (selPositions cols ss).map (fun l => i :: l)

/-- Modelled from the spec: pull-based evaluation (§4.7) — a scanner
materialises its source filtered by the conjunction of its appended
predicates; a joiner nested-loops over its children applying the join
predicate per cross-pair; a selector node projects its selector list
(an empty list passes through). -/
def Node.exec : Node → Except Err (List String × List Tuple)
  | .scanNode r src preds =>
    .ok (r.attributes.map (fun a => a.name),
      src.sourceRows.filter (fun tu =>
        preds.all (fun p =>
          evalPredNamed (r.attributes.map (fun a => a.name)) p tu)))
  | .joinNode p l rt => do
    let lres ← l.exec
    let rres ← rt.exec
    let cols := lres.1 ++ rres.1
    .ok (cols,
      ((lres.2.map (fun a => rres.2.map (fun b => a ++ b))).flatten).filter
        (fun tu => evalPredNamed cols p tu))
  | .selNode sels c => do
    let res ← c.exec
    match sels with
    | [] => .ok res
    | _ => do
      let idxs ← selPositions res.1 sels
      .ok (sels.map (fun s => s.attrName),
        res.2.map (fun tu =>
          idxs.map (fun i => (tu[i]?).getD (Val.int 0))))

/-- Result of `Query`: engine, transaction, and columns-plus-rows or
the error. -/
structure QueryResult where
  eng : Engine
  tx : Transaction
  out : Except Err (List String × List Tuple)
deriving DecidableEq, Repr

/-- `Transaction.Query` (transaction.go, lines 263-384): latch gate;
schema lookup (abort on failure); nil-predicate check (abort); lock
discovery over the predicate then the selectors (abort on failure —
the rollback inside abort releases every acquired lock either way);
plan construction; execution; any failure aborts the transaction. -/
def query (e : Engine) (t : Transaction) (sch : String)
    (selectors : List Selector) (p : Option Predicate)
    (joiners : List Joiner) : QueryResult :=
  match t.aborted with
  | some err => ⟨e, t, .error err⟩
  | none =>
    match e.findSchema sch with
    | none =>
      let pr := abortT e t (.schemaMissing sch)
      ⟨pr.1, pr.2, .error (.schemaMissing sch)⟩
    | some s =>
      match p with
      | none =>
        let pr := abortT e t .nilPredicate
        ⟨pr.1, pr.2, .error .nilPredicate⟩
      | some p =>
        match recLock e sch p t.locks [] with
        | .error err =>
          let pr := abortT e t err
          ⟨pr.1, pr.2, .error err⟩
        | .ok (locks₁, rels₁) =>
          match lockSelectors s selectors locks₁ rels₁ with
          | .error err =>
            let pr := abortT e t err
            ⟨pr.1, pr.2, .error err⟩
          | .ok (locks₂, rels₂) =>
            match planQuery rels₂ selectors p joiners with
            | .error err =>
              let pr := abortT e { t with locks := locks₂ } err
              ⟨pr.1, pr.2, .error err⟩
            | .ok n =>
              match n.exec with
              | .error err =>
                let pr := abortT e { t with locks := locks₂ } err
                ⟨pr.1, pr.2, .error err⟩
              | .ok res => ⟨e, { t with locks := locks₂ }, .ok res⟩

/-! ## Observable relation state

The rollback properties speak about row lists and indexes ("same
tuples, same order") but deliberately not about attribute metadata: the
autoincrement counter is documented *not* to roll back.  `core`
projects an engine onto exactly the observable part. -/

/-- Row list and indexes of a relation, without attribute metadata. -/
structure RelCore where
  name : String
  rows : List Tuple
  indexes : List Index
deriving DecidableEq, Repr

def Relation.core (r : Relation) : RelCore :=
  ⟨r.name, r.rows, r.indexes⟩

structure SchCore where
  name : String
  relations : List RelCore
deriving DecidableEq, Repr

def Schema.core (s : Schema) : SchCore :=
  ⟨s.name, s.relations.map Relation.core⟩

structure EngCore where
  schemas : List SchCore
deriving DecidableEq, Repr

def Engine.core (e : Engine) : EngCore :=
  ⟨e.schemas.map Schema.core⟩

def updateFirstRelCore (n : String) (f : RelCore → RelCore) :
    List RelCore → List RelCore
  | [] => []
  | r :: rs =>
    if r.name = n then f r :: rs else r :: updateFirstRelCore n f rs

def updateFirstSchCore (n : String) (f : SchCore → SchCore) :
    List SchCore → List SchCore
  | [] => []
  | s :: ss =>
    if s.name = n then f s :: ss else s :: updateFirstSchCore n f ss

def eraseFirstRelCore (n : String) : List RelCore → List RelCore
  | [] => []
  | r :: rs => if r.name = n then rs else r :: eraseFirstRelCore n rs

def EngCore.updateRel (ec : EngCore) (sch rel : String)
    (f : RelCore → RelCore) : EngCore :=
  { schemas := updateFirstSchCore sch
      (fun s => { s with relations := updateFirstRelCore rel f s.relations })
      ec.schemas }

def EngCore.removeRel (ec : EngCore) (sch rel : String) : EngCore :=
  { schemas := updateFirstSchCore sch
      (fun s => { s with relations := eraseFirstRelCore rel s.relations })
      ec.schemas }

def EngCore.addRel (ec : EngCore) (sch : String) (r : RelCore) : EngCore :=
  { schemas := updateFirstSchCore sch
      (fun s => { s with relations := s.relations ++ [r] }) ec.schemas }

/-- `undo`, projected to the observable state. -/
def undoCore (ec : EngCore) : Change → EngCore
  | .valueChange sch rel tup pos =>
    ec.updateRel sch rel (fun r =>
      { r with rows := r.rows.eraseIdx pos,
               indexes := r.indexes.map (fun i => i.removeTuple tup) })
  | .relationChange sch (some r) none => ec.removeRel sch r.name
  | .relationChange sch none (some r) => ec.addRel sch r.core
  | .relationChange sch (some cur) (some old) =>
    ec.updateRel sch cur.name (fun _ => old.core)
  | .relationChange _ none none => ec

/-! ## Basic lemmas about the transaction state machine -/

theorem aborted_none {t : Transaction} (h : t.err = none) :
    t.aborted = none := by
  simp [Transaction.aborted, h]

theorem aborted_some {t : Transaction} {c : Err} (h : t.err = some c) :
    t.aborted = some (.terminated c) := by
  simp [Transaction.aborted, h]

theorem lock_err (t : Transaction) (n : String) :
    (t.lock n).err = t.err := by
  simp only [Transaction.lock]; split <;> rfl

theorem lock_changes (t : Transaction) (n : String) :
    (t.lock n).changes = t.changes := by
  simp only [Transaction.lock]; split <;> rfl

theorem lock_locks_mono {t : Transaction} {m : String} (n : String)
    (h : m ∈ t.locks) : m ∈ (t.lock n).locks := by
  simp only [Transaction.lock]; split
  · exact h
  · simp [h]

theorem mem_lock_self (t : Transaction) (n : String) :
    n ∈ (t.lock n).locks := by
  simp only [Transaction.lock]; split
  · assumption
  · simp

theorem rollback_of_none {e : Engine} {t : Transaction}
    (h : t.err = none) :
    rollback e t
      = (undoAllRev e t.changes, { t with changes := [], locks := [] }) := by
  simp [rollback, aborted_none h]

theorem abortT_eq {e : Engine} {t : Transaction} (c : Err)
    (h : t.err = none) :
    abortT e t c
      = (undoAllRev e t.changes,
         { locks := [], changes := [], err := some c }) := by
  simp [abortT, rollback_of_none h]

/-- Behaviour of a transaction whose latch is set to `c`: every
operation returns the wrapped latch error and leaves both the engine
and the transaction untouched. -/
def terminatedAfter (e : Engine) (t : Transaction) (c : Err) : Prop :=
  t.changes = [] ∧ t.locks = [] ∧ t.err = some c ∧
  ∀ sch rel : String, ∀ vs : List (String × Val),
    ∀ attributes : List Attribute, ∀ pk : List String,
    ∀ selectors : List Selector, ∀ p : Option Predicate,
    ∀ joiners : List Joiner,
    insert e t sch rel vs = ⟨e, t, vs, .error (.terminated c)⟩ ∧
    query e t sch selectors p joiners
      = ⟨e, t, .error (.terminated c)⟩ ∧
    createRelation e t sch rel attributes pk
      = ⟨e, t, .error (.terminated c)⟩ ∧
    dropRelation e t sch rel = ⟨e, t, .error (.terminated c)⟩ ∧
    commit t = ⟨.error (.terminated c), t⟩ ∧
    rollback e t = (e, t)

theorem terminatedAfter_of_err {e : Engine} {t : Transaction} {c : Err}
    (h : t.err = some c) (h1 : t.changes = []) (h2 : t.locks = []) :
    terminatedAfter e t c := by
  refine ⟨h1, h2, h, fun sch rel vs attributes pk selectors p joiners => ?_⟩
  refine ⟨?_, ?_, ?_, ?_, ?_, ?_⟩
  · simp [insert, aborted_some h]
  · simp [query, aborted_some h]
  · simp [createRelation, aborted_some h]
  · simp [dropRelation, aborted_some h]
  · simp [commit, aborted_some h]
  · simp [rollback, aborted_some h]

theorem abortT_terminated {e : Engine} {t : Transaction} (c : Err)
    (h : t.err = none) :
    terminatedAfter (abortT e t c).1 (abortT e t c).2 c := by
  rw [abortT_eq c h]
  exact terminatedAfter_of_err rfl rfl rfl

theorem insert_err_terminated {e : Engine} {t : Transaction}
    {sch rel : String} {vs : List (String × Val)} {c : Err}
    (h : t.err = none)
    (he : (insert e t sch rel vs).out = .error c) :
    terminatedAfter (insert e t sch rel vs).eng
      (insert e t sch rel vs).tx c := by
  have hl : (t.lock rel).err = none := by rw [lock_err]; exact h
  unfold insert at he ⊢
  rw [aborted_none h] at he ⊢
  cases hs : e.findSchema sch with
  | none =>
    simp only [hs] at he ⊢
    obtain rfl : Err.schemaMissing sch = c := by simpa using he
    exact abortT_terminated _ h
  | some s =>
    simp only [hs] at he ⊢
    cases hr : s.findRel rel with
    | none =>
      simp only [hr] at he ⊢
      obtain rfl : Err.relationMissing rel = c := by simpa using he
      exact abortT_terminated _ h
    | some r =>
      simp only [hr] at he ⊢
      rcases hbt : buildTuple rel r.attributes vs with ⟨attrs', vals', out⟩
      simp only [hbt] at he ⊢
      cases out with
      | error err =>
        obtain rfl : err = c := by simpa using he
        exact abortT_terminated _ hl
      | ok tup =>
        cases vals' with
        | nil => simp at he
        | cons kv rest =>
          rcases kv with ⟨k, v⟩
          obtain rfl : Err.attributeMissing k rel = c := by simpa using he
          exact abortT_terminated _ hl

theorem createRelation_err_terminated {e : Engine} {t : Transaction}
    {sch rel : String} {attributes : List Attribute} {pk : List String}
    {c : Err} (h : t.err = none)
    (he : (createRelation e t sch rel attributes pk).out = .error c) :
    terminatedAfter (createRelation e t sch rel attributes pk).eng
      (createRelation e t sch rel attributes pk).tx c := by
  unfold createRelation at he ⊢
  rw [aborted_none h] at he ⊢
  cases hc : e.createRelation sch rel attributes pk with
  | error err =>
    simp only [hc] at he ⊢
    obtain rfl : err = c := by simpa using he
    exact abortT_terminated _ h
  | ok p =>
    simp only [hc] at he
    simp at he

/-! ## Commuting the observable projection with the operations -/

theorem removeTuple_add (i : Index) (t : Tuple) :
    (i.add t).removeTuple t = i := by
  simp [Index.add, Index.removeTuple, List.reverse_append]

theorem eraseIdx_append_len (xs : List Tuple) (x : Tuple) :
    (xs ++ [x]).eraseIdx xs.length = xs := by
  induction xs with
  | nil => rfl
  | cons y ys ih => simp [List.eraseIdx, ih]

theorem map_core_updateFirstRel (n : String) (f : Relation → Relation)
    (g : RelCore → RelCore) (h : ∀ r : Relation, (f r).core = g r.core)
    (l : List Relation) :
    (updateFirstRel n f l).map Relation.core
      = updateFirstRelCore n g (l.map Relation.core) := by
  induction l with
  | nil => rfl
  | cons r rs ih =>
    simp only [updateFirstRel, updateFirstRelCore, List.map_cons]
    by_cases hn : r.name = n
    · rw [if_pos hn, if_pos (show (Relation.core r).name = n from hn)]
      rw [List.map_cons, h r]
    · rw [if_neg hn, if_neg (show ¬ (Relation.core r).name = n from hn)]
      rw [List.map_cons, ih]

theorem map_core_eraseFirstRel (n : String) (l : List Relation) :
    (eraseFirstRel n l).map Relation.core
      = eraseFirstRelCore n (l.map Relation.core) := by
  induction l with
  | nil => rfl
  | cons r rs ih =>
    simp only [eraseFirstRel, eraseFirstRelCore, List.map_cons]
    by_cases hn : r.name = n
    · rw [if_pos hn, if_pos (show (Relation.core r).name = n from hn)]
    · rw [if_neg hn, if_neg (show ¬ (Relation.core r).name = n from hn)]
      rw [List.map_cons, ih]

theorem map_core_updateFirstSch (n : String) (f : Schema → Schema)
    (g : SchCore → SchCore) (h : ∀ s : Schema, (f s).core = g s.core)
    (l : List Schema) :
    (updateFirstSch n f l).map Schema.core
      = updateFirstSchCore n g (l.map Schema.core) := by
  induction l with
  | nil => rfl
  | cons s ss ih =>
    simp only [updateFirstSch, updateFirstSchCore, List.map_cons]
    by_cases hn : s.name = n
    · rw [if_pos hn, if_pos (show (Schema.core s).name = n from hn)]
      rw [List.map_cons, h s]
    · rw [if_neg hn, if_neg (show ¬ (Schema.core s).name = n from hn)]
      rw [List.map_cons, ih]

theorem core_updateRel (e : Engine) (sch rel : String)
    (f : Relation → Relation) (g : RelCore → RelCore)
    (h : ∀ r : Relation, (f r).core = g r.core) :
    (e.updateRel sch rel f).core = e.core.updateRel sch rel g := by
  simp only [Engine.updateRel, EngCore.updateRel, Engine.core]
  congr 1
  apply map_core_updateFirstSch
  intro s
  simp only [Schema.core]
  rw [map_core_updateFirstRel rel f g h]

theorem core_removeRel (e : Engine) (sch rel : String) :
    (e.removeRel sch rel).core = e.core.removeRel sch rel := by
  simp only [Engine.removeRel, EngCore.removeRel, Engine.core]
  congr 1
  apply map_core_updateFirstSch
  intro s
  simp only [Schema.core]
  rw [map_core_eraseFirstRel]

theorem core_addRel (e : Engine) (sch : String) (r : Relation) :
    (e.addRel sch r).core = e.core.addRel sch r.core := by
  simp only [Engine.addRel, EngCore.addRel, Engine.core]
  congr 1
  apply map_core_updateFirstSch
  intro s
  simp [Schema.core]

theorem undo_core (e : Engine) (c : Change) :
    (undo e c).core = undoCore e.core c := by
  cases c with
  | valueChange sch rel tup pos =>
    exact core_updateRel e sch rel _ _ (fun r => rfl)
  | relationChange sch cur old =>
    cases cur with
    | none =>
      cases old with
      | none => rfl
      | some r => exact core_addRel e sch r
    | some cur =>
      cases old with
      | none => exact core_removeRel e sch cur.name
      | some old => exact core_updateRel e sch cur.name _ _ (fun _ => rfl)

theorem foldl_undo_core (l : List Change) :
    ∀ e : Engine, (l.foldl undo e).core = l.foldl undoCore e.core := by
  induction l with
  | nil => intro e; rfl
  | cons c cs ih =>
    intro e
    simp only [List.foldl_cons]
    rw [ih, undo_core]

theorem undoAllRev_core (e : Engine) (cs : List Change) :
    (undoAllRev e cs).core = cs.reverse.foldl undoCore e.core :=
  foldl_undo_core cs.reverse e

theorem undoAllRev_append_single (e : Engine) (cs : List Change)
    (c : Change) :
    undoAllRev e (cs ++ [c]) = undoAllRev (undo e c) cs := by
  simp [undoAllRev, List.reverse_append]

theorem find?_map_rel_core (l : List Relation) (n : String) :
    (l.map Relation.core).find? (fun rc => rc.name = n)
      = (l.find? (fun r => r.name = n)).map Relation.core := by
  induction l with
  | nil => rfl
  | cons r rs ih =>
    by_cases hn : r.name = n
    · simp [List.find?_cons, Relation.core, hn]
    · simp [List.find?_cons, Relation.core, hn, ih]

theorem find?_map_sch_core (l : List Schema) (n : String) :
    (l.map Schema.core).find? (fun sc => sc.name = n)
      = (l.find? (fun s => s.name = n)).map Schema.core := by
  induction l with
  | nil => rfl
  | cons s ss ih =>
    by_cases hn : s.name = n
    · simp [List.find?_cons, Schema.core, hn]
    · simp [List.find?_cons, Schema.core, hn, ih]

theorem updateFirstRelCore_self (n : String) (f : RelCore → RelCore)
    (l : List RelCore)
    (h : ∀ rc, l.find? (fun x => x.name = n) = some rc → f rc = rc) :
    updateFirstRelCore n f l = l := by
  induction l with
  | nil => rfl
  | cons r rs ih =>
    simp only [updateFirstRelCore]
    by_cases hn : r.name = n
    · have hf : f r = r := h r (by simp [List.find?_cons, hn])
      simp [hn, hf]
    · have := ih (fun rc hrc => h rc (by simp [List.find?_cons, hn, hrc]))
      simp [hn, this]

theorem updateFirstSchCore_self (n : String) (f : SchCore → SchCore)
    (l : List SchCore)
    (h : ∀ sc, l.find? (fun x => x.name = n) = some sc → f sc = sc) :
    updateFirstSchCore n f l = l := by
  induction l with
  | nil => rfl
  | cons s ss ih =>
    simp only [updateFirstSchCore]
    by_cases hn : s.name = n
    · have hf : f s = s := h s (by simp [List.find?_cons, hn])
      simp [hn, hf]
    · have := ih (fun sc hsc => h sc (by simp [List.find?_cons, hn, hsc]))
      simp [hn, this]

theorem updateFirstRelCore_comp (n : String) (f g : RelCore → RelCore)
    (hg : ∀ rc, (g rc).name = rc.name) (l : List RelCore) :
    updateFirstRelCore n f (updateFirstRelCore n g l)
      = updateFirstRelCore n (fun rc => f (g rc)) l := by
  induction l with
  | nil => rfl
  | cons r rs ih =>
    simp only [updateFirstRelCore]
    by_cases hn : r.name = n
    · simp [hn, updateFirstRelCore, hg r]
    · simp [hn, updateFirstRelCore, ih]

theorem updateFirstSchCore_comp (n : String) (f g : SchCore → SchCore)
    (hg : ∀ sc, (g sc).name = sc.name) (l : List SchCore) :
    updateFirstSchCore n f (updateFirstSchCore n g l)
      = updateFirstSchCore n (fun sc => f (g sc)) l := by
  induction l with
  | nil => rfl
  | cons s ss ih =>
    simp only [updateFirstSchCore]
    by_cases hn : s.name = n
    · simp [hn, updateFirstSchCore, hg s]
    · simp [hn, updateFirstSchCore, ih]

theorem EngCore.updateRel_updateRel (ec : EngCore) (sch rel : String)
    (f g : RelCore → RelCore) (hg : ∀ rc, (g rc).name = rc.name) :
    (ec.updateRel sch rel g).updateRel sch rel f
      = ec.updateRel sch rel (fun rc => f (g rc)) := by
  simp only [EngCore.updateRel]
  congr 1
  have hcomp := updateFirstSchCore_comp sch
    (fun s => { s with relations := updateFirstRelCore rel f s.relations })
    (fun s => { s with relations := updateFirstRelCore rel g s.relations })
    (fun sc => rfl) ec.schemas
  rw [hcomp]
  congr 1
  funext sc
  congr 1
  exact updateFirstRelCore_comp rel f g hg sc.relations

theorem dropRelation_err_terminated {e : Engine} {t : Transaction}
    {sch rel : String} {c : Err} (h : t.err = none)
    (he : (dropRelation e t sch rel).out = .error c) :
    terminatedAfter (dropRelation e t sch rel).eng
      (dropRelation e t sch rel).tx c := by
  unfold dropRelation at he ⊢
  rw [aborted_none h] at he ⊢
  cases hc : e.dropRelation sch rel with
  | error err =>
    simp only [hc] at he ⊢
    obtain rfl : err = c := by simpa using he
    exact abortT_terminated _ h
  | ok p =>
    simp only [hc] at he
    simp at he

theorem query_err_terminated {e : Engine} {t : Transaction}
    {sch : String} {selectors : List Selector} {p : Option Predicate}
    {joiners : List Joiner} {c : Err} (h : t.err = none)
    (he : (query e t sch selectors p joiners).out = .error c) :
    terminatedAfter (query e t sch selectors p joiners).eng
      (query e t sch selectors p joiners).tx c := by
  have h₂ : ∀ l : List String,
      ({ t with locks := l } : Transaction).err = none := fun _ => h
  unfold query at he ⊢
  rw [aborted_none h] at he ⊢
  cases hs : e.findSchema sch with
  | none =>
    simp only [hs] at he ⊢
    obtain rfl : Err.schemaMissing sch = c := by simpa using he
    exact abortT_terminated _ h
  | some s =>
    simp only [hs] at he ⊢
    cases p with
    | none =>
      obtain rfl : Err.nilPredicate = c := by simpa using he
      exact abortT_terminated _ h
    | some p =>
      cases hrl : recLock e sch p t.locks [] with
      | error err =>
        simp only [hrl] at he ⊢
        obtain rfl : err = c := by simpa using he
        exact abortT_terminated _ h
      | ok pr =>
        rcases pr with ⟨locks₁, rels₁⟩
        simp only [hrl] at he ⊢
        cases hls : lockSelectors s selectors locks₁ rels₁ with
        | error err =>
          simp only [hls] at he ⊢
          obtain rfl : err = c := by simpa using he
          exact abortT_terminated _ h
        | ok pr2 =>
          rcases pr2 with ⟨locks₂, rels₂⟩
          simp only [hls] at he ⊢
          cases hpq : planQuery rels₂ selectors p joiners with
          | error err =>
            simp only [hpq] at he ⊢
            obtain rfl : err = c := by simpa using he
            exact abortT_terminated _ (h₂ locks₂)
          | ok n =>
            simp only [hpq] at he ⊢
            cases hex : n.exec with
            | error err =>
              simp only [hex] at he ⊢
              obtain rfl : err = c := by simpa using he
              exact abortT_terminated _ (h₂ locks₂)
            | ok res =>
              simp only [hex] at he
              simp at he

/-! ## A successful insert is undone exactly by its change entry -/

theorem insert_ok_core {e : Engine} {t : Transaction} {sch rel : String}
    {vs : List (String × Val)} {tup : Tuple}
    (h : t.err = none)
    (hok : (insert e t sch rel vs).out = .ok tup) :
    (insert e t sch rel vs).tx.err = none ∧
    ∃ pos,
      (insert e t sch rel vs).tx.changes
        = t.changes ++ [Change.valueChange sch rel tup pos] ∧
      undoCore (insert e t sch rel vs).eng.core
        (Change.valueChange sch rel tup pos) = e.core := by
  unfold insert at hok ⊢
  rw [aborted_none h] at hok ⊢
  cases hs : e.findSchema sch with
  | none => simp [hs] at hok
  | some s =>
    simp only [hs] at hok ⊢
    cases hr : s.findRel rel with
    | none => simp [hr] at hok
    | some r =>
      simp only [hr] at hok ⊢
      rcases hbt : buildTuple rel r.attributes vs with ⟨attrs', vals', out⟩
      simp only [hbt] at hok ⊢
      cases out with
      | error err => simp at hok
      | ok tup' =>
        cases vals' with
        | cons kv rest => rcases kv with ⟨k, v⟩; simp at hok
        | nil =>
          obtain rfl : tup' = tup := by simpa using hok
          refine ⟨by rw [lock_err]; exact h, r.rows.length, ?_, ?_⟩
          · simp [lock_changes]
          · rw [core_updateRel e sch rel _
              (fun rc =>
                { rc with
                    rows := rc.rows ++ [tup'],
                    indexes := rc.indexes.map (fun i => i.add tup') })
              (fun r₀ => rfl)]
            show (EngCore.updateRel _ sch rel _).updateRel sch rel _ = _
            rw [EngCore.updateRel_updateRel _ sch rel
              (fun rc =>
                { rc with
                    rows := rc.rows.eraseIdx r.rows.length,
                    indexes := rc.indexes.map (fun i => i.removeTuple tup') })
              (fun rc =>
                { rc with
                    rows := rc.rows ++ [tup'],
                    indexes := rc.indexes.map (fun i => i.add tup') })
              (fun rc => rfl)]
            have hse : e.core.schemas.find? (fun sc => sc.name = sch)
                = some s.core := by
              show (e.schemas.map Schema.core).find? (fun sc => sc.name = sch)
                = some s.core
              rw [find?_map_sch_core]
              rw [show e.schemas.find? (fun x => x.name = sch) = some s
                from hs]
              rfl
            have hre : (s.core).relations.find? (fun rc => rc.name = rel)
                = some r.core := by
              show (s.relations.map Relation.core).find?
                  (fun rc => rc.name = rel) = some r.core
              rw [find?_map_rel_core]
              rw [show s.relations.find? (fun x => x.name = rel) = some r
                from hr]
              rfl
            show EngCore.mk (updateFirstSchCore sch _ e.core.schemas)
              = e.core
            have hsfix : ∀ sc, e.core.schemas.find?
                (fun x => x.name = sch) = some sc →
                ({ sc with
                      relations := updateFirstRelCore rel
                        (fun rc =>
                          { name := rc.name,
                            rows :=
                              (rc.rows ++ [tup']).eraseIdx r.rows.length,
                            indexes :=
                              (rc.indexes.map (fun i => i.add tup')).map
                                (fun i => i.removeTuple tup') } ) sc.relations }
                  : SchCore) = sc := by
              intro sc hsc
              rw [hse] at hsc
              obtain rfl : s.core = sc := by simpa using hsc
              have hrfix : ∀ rc, (s.core).relations.find?
                  (fun x => x.name = rel) = some rc →
                  ({ name := rc.name,
                     rows := (rc.rows ++ [tup']).eraseIdx r.rows.length,
                     indexes := (rc.indexes.map (fun i => i.add tup')).map
                       (fun i => i.removeTuple tup') } : RelCore) = rc := by
                intro rc hrc
                rw [hre] at hrc
                obtain rfl : r.core = rc := by simpa using hrc
                have h1 : (r.core.rows ++ [tup']).eraseIdx r.rows.length
                    = r.core.rows := eraseIdx_append_len r.rows tup'
                have h2 : (r.core.indexes.map (fun i => i.add tup')).map
                    (fun i => i.removeTuple tup') = r.core.indexes := by
                  rw [List.map_map]
                  have hcomp : ∀ i : Index,
                      ((fun i => i.removeTuple tup') ∘
                        fun i => i.add tup') i = id i :=
                    fun i => removeTuple_add i tup'
                  rw [List.map_congr_left (fun i _ => hcomp i), List.map_id]
                rw [h1, h2]
              have := updateFirstRelCore_self rel
                (fun rc =>
                  { name := rc.name,
                    rows := (rc.rows ++ [tup']).eraseIdx r.rows.length,
                    indexes := (rc.indexes.map (fun i => i.add tup')).map
                      (fun i => i.removeTuple tup') } )
                (s.core).relations hrfix
              rw [this]
            rw [updateFirstSchCore_self sch _ e.core.schemas hsfix]

/-! ## Sequences of inserts -/

/-- Is an `Except` a success? -/
def isOkE {α : Type} : Except Err α → Bool
  | .ok _ => true
  | .error _ => false

theorem isOkE_iff {α : Type} (x : Except Err α) :
    isOkE x = true ↔ ∃ a, x = .ok a := by
  cases x <;> simp [isOkE]

/-- An insert request: schema name, relation name, values map. -/
abbrev InsReq := String × String × List (String × Val)

/-- Run a sequence of `Insert` calls inside one transaction. -/
def runInserts : Engine → Transaction → List InsReq → Engine × Transaction
  | e, t, [] => (e, t)
  | e, t, (sch, rel, vs) :: rest =>
    let r := insert e t sch rel vs
    runInserts r.eng r.tx rest

/-- All of the inserts in the sequence succeed. -/
def allOk : Engine → Transaction → List InsReq → Bool
  | _, _, [] => true
  | e, t, (sch, rel, vs) :: rest =>
    let r := insert e t sch rel vs
    isOkE r.out && allOk r.eng r.tx rest

/-! ## Operations on a latched transaction -/

theorem insert_term {e : Engine} {t : Transaction} {c : Err}
    (sch rel : String) (vs : List (String × Val)) (h : t.err = some c) :
    insert e t sch rel vs = ⟨e, t, vs, .error (.terminated c)⟩ := by
  simp [insert, aborted_some h]

theorem createRelation_term {e : Engine} {t : Transaction} {c : Err}
    (sch rel : String) (attributes : List Attribute) (pk : List String)
    (h : t.err = some c) :
    createRelation e t sch rel attributes pk
      = ⟨e, t, .error (.terminated c)⟩ := by
  simp [createRelation, aborted_some h]

theorem dropRelation_term {e : Engine} {t : Transaction} {c : Err}
    (sch rel : String) (h : t.err = some c) :
    dropRelation e t sch rel = ⟨e, t, .error (.terminated c)⟩ := by
  simp [dropRelation, aborted_some h]

/-! ## Keys that name no declared attribute are never consumed -/

theorem kLookup_eraseKey_ne {vs : List (String × Val)} {k a : String}
    (h : a ≠ k) : kLookup (eraseKey vs a) k = kLookup vs k := by
  induction vs with
  | nil => rfl
  | cons p ps ih =>
    simp only [eraseKey]
    by_cases hpa : p.1 = a
    · rw [if_pos hpa, ih]
      have hpk : ¬ p.1 = k := by rw [hpa]; exact h
      simp only [kLookup]
      rw [if_neg hpk]
    · rw [if_neg hpa]
      simp only [kLookup]
      by_cases hpk : p.1 = k
      · rw [if_pos hpk, if_pos hpk]
      · rw [if_neg hpk, if_neg hpk, ih]

theorem buildTuple_unknown_preserved (relName : String)
    (attributes : List Attribute) (k : String)
    (hk : ∀ a ∈ attributes, a.name ≠ k) :
    ∀ vs : List (String × Val),
      kLookup (buildTuple relName attributes vs).2.1 k = kLookup vs k := by
  induction attributes with
  | nil => intro vs; rfl
  | cons a as ih =>
    intro vs
    have ha : a.name ≠ k := hk a (by simp)
    have ih' := ih (fun b hb => hk b (by simp [hb]))
    simp only [buildTuple]
    cases hv : kLookup vs a.name with
    | none =>
      cases hd : a.defaultValue with
      | some d => exact ih' vs
      | none =>
        by_cases hai : a.autoIncrement
        · simp [hai]; exact ih' vs
        · simp [hai]
    | some v =>
      by_cases hc : convertible v.kind a.domain
      · simp [hc]
        rw [ih' (eraseKey vs a.name)]
        exact kLookup_eraseKey_ne ha
      · simp [hc]

/-! ## Identity updates leave the core unchanged -/

theorem updateFirstRelCore_ident (n : String) (l : List RelCore) :
    updateFirstRelCore n (fun rc => rc) l = l := by
  induction l with
  | nil => rfl
  | cons r rs ih =>
    simp only [updateFirstRelCore]
    split
    · rfl
    · rw [ih]

theorem EngCore.updateRel_ident (ec : EngCore) (sch rel : String) :
    ec.updateRel sch rel (fun rc => rc) = ec := by
  simp only [EngCore.updateRel]
  have h2 : ∀ l : List SchCore,
      updateFirstSchCore sch (fun s =>
        { s with
            relations :=
              updateFirstRelCore rel (fun rc => rc) s.relations }) l
        = l := by
    intro l
    induction l with
    | nil => rfl
    | cons s ss ih =>
      simp only [updateFirstSchCore]
      split
      · rw [updateFirstRelCore_ident]
      · rw [ih]
  rw [h2]

/-- An update that only rewrites attribute metadata leaves the
observable core unchanged. -/
theorem core_updateRel_attrs (e : Engine) (sch rel : String)
    (attrs' : List Attribute) :
    (e.updateRel sch rel (fun r₀ =>
      { r₀ with attributes := attrs' })).core = e.core := by
  rw [core_updateRel e sch rel
    (fun r₀ => { r₀ with attributes := attrs' })
    (fun rc => rc) (fun r₀ => rfl)]
  exact EngCore.updateRel_ident e.core sch rel

/-! ## Sourcing when no index is applicable -/

theorem pickIndex_none (rname : String) (p : Predicate)
    (idxs : List Index)
    (h : ∀ i ∈ idxs, (recCanUseIndex rname i p).2.1 = false) :
    ∀ c : Int, pickIndex rname p idxs none c = (none, c) := by
  induction idxs with
  | nil => intro c; rfl
  | cons i rest ih =>
    intro c
    have hi : (recCanUseIndex rname i p).2.1 = false := h i (by simp)
    simp only [pickIndex, hi, Bool.false_and, if_neg (by simp : ¬ false = true)]
    exact ih (fun j hj => h j (by simp [hj])) c

theorem chooseSources_no_applicable (p : Predicate) :
    ∀ rels : List Relation,
      (∀ r ∈ rels, ∀ i ∈ r.indexes,
        (recCanUseIndex r.name i p).2.1 = false) →
      ∀ c : Int, chooseSources rels p c
        = rels.map (fun r => (r.name, Source.seqScan r)) := by
  intro rels
  induction rels with
  | nil => intro _ c; rfl
  | cons r rest ih =>
    intro h c
    have hr : pickIndex r.name p r.indexes none c = (none, c) :=
      pickIndex_none r.name p r.indexes (h r (by simp)) c
    simp only [chooseSources, hr, List.map_cons]
    rw [ih (fun x hx i hi => h x (by simp [hx]) i hi) c]

/-! ## The lock-superset invariant -/

/-- Invariant 4 of §3: every relation touched by a change already in
the log is locked by the transaction. -/
def lockInv (t : Transaction) : Prop :=
  ∀ c ∈ t.changes, ∀ n ∈ c.touched, n ∈ t.locks

theorem runInserts_invariant (reqs : List InsReq) :
    ∀ e : Engine, ∀ t : Transaction, t.err = none →
    allOk e t reqs = true →
    (runInserts e t reqs).2.err = none ∧
    (undoAllRev (runInserts e t reqs).1 (runInserts e t reqs).2.changes).core
      = (undoAllRev e t.changes).core := by
  induction reqs with
  | nil => intro e t ht _; exact ⟨ht, rfl⟩
  | cons req rest ih =>
    rcases req with ⟨sch, rel, vs⟩
    intro e t ht hall
    simp only [allOk, Bool.and_eq_true] at hall
    obtain ⟨tup, htup⟩ := (isOkE_iff _).mp hall.1
    obtain ⟨herr, pos, hch, hcore⟩ := insert_ok_core ht htup
    have step := ih (insert e t sch rel vs).eng (insert e t sch rel vs).tx
      herr hall.2
    simp only [runInserts]
    refine ⟨step.1, ?_⟩
    rw [step.2, hch, undoAllRev_append_single, undoAllRev_core,
      undoAllRev_core, undo_core, hcore]

/-! ## Concrete fixtures (mirroring the repository's tests) -/

/-- A plain INT column with no default, autoincrement or uniqueness. -/
def aInt (n : String) : Attribute := ⟨n, .kInt, none, false, 0, false⟩

/-- A plain TEXT column. -/
def aStr (n : String) : Attribute := ⟨n, .kStr, none, false, 0, false⟩

/-- `CREATE TABLE account (id INT, email TEXT)`. -/
def accountRel : Relation :=
  NewRelation "s" "account" [aInt "id", aStr "email"] []

/-- An engine holding schema `s` with the `account` relation. -/
def engAccount : Engine := ⟨[⟨"s", [accountRel]⟩]⟩

/-- A two-INT-column relation used for the values-map experiments. -/
def rabRel : Relation := NewRelation "s" "rab" [aInt "a", aInt "b"] []

def engRab : Engine := ⟨[⟨"s", [rabRel]⟩]⟩

/-- Relation `r1` with a primary key on `a` (so it owns a hash index). -/
def relOne : Relation := NewRelation "s" "r1" [aInt "a"] ["a"]

/-- Relation `r2` with a primary key on `b` (so it owns a hash index). -/
def relTwo : Relation := NewRelation "s" "r2" [aInt "b"] ["b"]

/-- The hash index `relTwo` owns. -/
def idxTwo : Index := NewHashIndex "pk_s_r2" "r2" [aInt "b"] ["b"] [0]

/-- `WHERE r1.a = 1 AND r2.b = 2`: an equality conjunct for each of the
two relations. -/
def predTwo : Predicate :=
  .pand (.leaf "r1" "a" .peq (.int 1)) (.leaf "r2" "b" .peq (.int 2))

/-! ## Claims -/

/-- **C1** (counterexample).  The claim says a rolled-back transaction
"accepts no further operations: every subsequent call returns the
latched error instead of executing".  But `Rollback` sets no error
latch (only `Commit` and `abort` do), so after a plain `Rollback` a
subsequent `Insert` executes and succeeds instead of returning an
error. -/
theorem rollback_then_insert_executes :
    (rollback engAccount NewTransaction).2.err = none ∧
    (insert (rollback engAccount NewTransaction).1
        (rollback engAccount NewTransaction).2
        "s" "account" [("id", Val.int 1), ("email", Val.str "x")]).out
      = .ok [Val.int 1, Val.str "x"] := by
  exact ⟨rfl, rfl⟩

/-- **C1** (amended).  After `Commit` the transaction holds no locks,
the latch is set to "transaction committed", and every subsequent
operation — Insert, Query, CreateRelation, DropRelation, Commit,
Rollback — returns the wrapped latch error without executing
(`terminatedAfter`); after `Rollback` the transaction holds no locks
and its change log is empty, but no error is latched. -/
theorem commit_terminates_rollback_releases (e : Engine)
    (t : Transaction) (h : t.err = none) :
    ((commit t).tx.locks = [] ∧ (commit t).tx.err = some .committed ∧
      terminatedAfter e (commit t).tx .committed) ∧
    ((rollback e t).2.locks = [] ∧ (rollback e t).2.changes = [] ∧
      (rollback e t).2.err = none) := by
  have hc : commit t
      = ⟨.ok t.changes.length,
         { t with changes := [], locks := [], err := some .committed }⟩ := by
    simp [commit, aborted_none h]
  constructor
  · rw [hc]
    exact ⟨rfl, rfl, terminatedAfter_of_err rfl rfl rfl⟩
  · rw [rollback_of_none h]
    exact ⟨rfl, rfl, h⟩

/-- **C1** (witness for the amended claim at a concrete input). -/
theorem commit_terminates_rollback_releases_witness :
    ((commit NewTransaction).tx.locks = [] ∧
      (commit NewTransaction).tx.err = some .committed ∧
      terminatedAfter engAccount (commit NewTransaction).tx .committed) ∧
    ((rollback engAccount NewTransaction).2.locks = [] ∧
      (rollback engAccount NewTransaction).2.changes = [] ∧
      (rollback engAccount NewTransaction).2.err = none) :=
  commit_terminates_rollback_releases engAccount NewTransaction rfl

/-- **C2**.  The claim (and the sourcing comment in the source: pick
per relation the applicable index of minimal cost, "HashIndex > Btree >
SeqScan") is violated by the code: `sourceCost` is declared outside the
relation loop, so the cost of the index chosen for the first relation
is carried into the second relation's comparison
`cost < sourceCost`, and the second relation falls back to a
sequential scan even though its own hash index is applicable with the
minimal cost 1.  Evaluated at the failing input: two relations, each
with an applicable cost-1 hash index. -/
theorem sourcing_skips_applicable_index :
    (recCanUseIndex "r2" idxTwo predTwo).2.1 = true ∧
    (recCanUseIndex "r2" idxTwo predTwo).1 = 1 ∧
    relTwo.indexes = [idxTwo] ∧
    (planSources [relOne, relTwo] predTwo).lookup "r2"
      = some (.seqScan relTwo) := by
  refine ⟨rfl, rfl, rfl, rfl⟩

/-- An equi-join descriptor between `r1` and `r2`. -/
def joinOneTwo : Joiner := ⟨"r1", "r2", .leaf "r1" "a" .peq (.int 0)⟩

/-- **C3** (counterexample).  The locked relations live in a Go map,
whose iteration order is not fixed; the claim says two planner
invocations on identical inputs produce identical execution trees.
The two association lists below are permutations of each other — two
legal iteration orders of the same relation map — yet the planner
builds different trees: first in the iteration order, `r1` is probed
through its hash index; second, its applicable index loses against the
carried-over `sourceCost` and `r1` is scanned sequentially (the join
tree shape and the scanner predicates agree, the Source per relation
does not). -/
theorem planner_order_dependent :
    [("r1", relOne), ("r2", relTwo)].Perm
      [("r2", relTwo), ("r1", relOne)] ∧
    planQuery [("r1", relOne), ("r2", relTwo)] [] predTwo [joinOneTwo]
      ≠ planQuery [("r2", relTwo), ("r1", relOne)] [] predTwo
          [joinOneTwo] := by
  constructor
  · exact List.Perm.swap ("r2", relTwo) ("r1", relOne) []
  · decide

/-- **C3** (amended).  The planner's source assignment is a function of
the iteration order of the locked-relation map, which Go does not fix;
invocations that iterate the relations in the same order produce the
same assignment, and when no index is applicable to the query the
assignment is order-independent — every relation is assigned its
sequential scan. -/
theorem planSources_all_seqscan (rels : List Relation) (p : Predicate)
    (h : ∀ r ∈ rels, ∀ i ∈ r.indexes,
      (recCanUseIndex r.name i p).2.1 = false) :
    planSources rels p = rels.map (fun r => (r.name, Source.seqScan r)) :=
  chooseSources_no_applicable p rels h 0

/-- **C3** (witness for the amended claim at a concrete input): the
`account` relation has no index, so a query over it alone is sourced
by a sequential scan however the map is iterated. -/
theorem planSources_all_seqscan_witness :
    planSources [accountRel] (.leaf "account" "id" .peq (.int 1))
      = [("account", Source.seqScan accountRel)] :=
  planSources_all_seqscan [accountRel]
    (.leaf "account" "id" .peq (.int 1)) (by decide)

/-- **C4**.  Every failing operation on an active (unlatched)
transaction — Insert, Query (including its planning errors:
nil predicate, unknown relation, joiner without a scanner, no join
with several scanners), CreateRelation, DropRelation — aborts it: the
change log is rolled back to empty, all locks are released, the cause
is latched unwrapped, and every subsequent operation (Insert, Query,
CreateRelation, DropRelation, Commit, Rollback) returns the cause
wrapped in the termination error while leaving the engine and the
transaction untouched (so nothing is retried). -/
theorem operation_failure_aborts (e : Engine) (t : Transaction)
    (sch rel : String) (vs : List (String × Val))
    (attributes : List Attribute) (pk : List String)
    (selectors : List Selector) (p : Option Predicate)
    (joiners : List Joiner) (c : Err)
    (h : t.err = none) :
    ((insert e t sch rel vs).out = .error c →
      terminatedAfter (insert e t sch rel vs).eng
        (insert e t sch rel vs).tx c) ∧
    ((query e t sch selectors p joiners).out = .error c →
      terminatedAfter (query e t sch selectors p joiners).eng
        (query e t sch selectors p joiners).tx c) ∧
    ((createRelation e t sch rel attributes pk).out = .error c →
      terminatedAfter (createRelation e t sch rel attributes pk).eng
        (createRelation e t sch rel attributes pk).tx c) ∧
    ((dropRelation e t sch rel).out = .error c →
      terminatedAfter (dropRelation e t sch rel).eng
        (dropRelation e t sch rel).tx c) :=
  ⟨fun he => insert_err_terminated h he,
   fun he => query_err_terminated h he,
   fun he => createRelation_err_terminated h he,
   fun he => dropRelation_err_terminated h he⟩

/-- **C4** (witness): inserting into a missing schema and querying
with a nil predicate both abort the transaction with the latched
cause. -/
theorem operation_failure_aborts_witness :
    ((insert ⟨[]⟩ NewTransaction "noschema" "r" []).out
      = .error (.schemaMissing "noschema") ∧
    terminatedAfter (insert ⟨[]⟩ NewTransaction "noschema" "r" []).eng
      (insert ⟨[]⟩ NewTransaction "noschema" "r" []).tx
      (.schemaMissing "noschema")) ∧
    ((query engAccount NewTransaction "s" [] none []).out
      = .error .nilPredicate ∧
    terminatedAfter (query engAccount NewTransaction "s" [] none []).eng
      (query engAccount NewTransaction "s" [] none []).tx
      .nilPredicate) :=
  ⟨⟨rfl,
    (operation_failure_aborts ⟨[]⟩ NewTransaction "noschema" "r" [] [] []
      [] none [] (.schemaMissing "noschema") rfl).1 rfl⟩,
   ⟨rfl,
    (operation_failure_aborts engAccount NewTransaction "s" "r" [] [] []
      [] none [] .nilPredicate rfl).2.1 rfl⟩⟩

/-- **C5**.  Any sequence of successful inserts followed by `Rollback`
restores the observable engine state exactly: every relation's row
list and every index hold the same tuples in the same order as before
the transaction (the change log being undone in reverse insertion
order by `rollback`), the change log is emptied and all locks are
released.  Attribute metadata is outside the statement because the
autoincrement counter deliberately does not roll back. -/
theorem inserts_rollback_restores (e : Engine) (t : Transaction)
    (reqs : List InsReq) (h : t.err = none) (h0 : t.changes = [])
    (hall : allOk e t reqs = true) :
    ((rollback (runInserts e t reqs).1 (runInserts e t reqs).2).1).core
      = e.core ∧
    (rollback (runInserts e t reqs).1 (runInserts e t reqs).2).2.changes
      = [] ∧
    (rollback (runInserts e t reqs).1 (runInserts e t reqs).2).2.locks
      = [] := by
  obtain ⟨herr, hcore⟩ := runInserts_invariant reqs e t h hall
  rw [rollback_of_none herr]
  refine ⟨?_, rfl, rfl⟩
  rw [hcore, h0]
  rfl

/-- The two inserts of the rollback scenario S2. -/
def rollbackReqs : List InsReq :=
  [("s", "account", [("id", Val.int 1), ("email", Val.str "x")]),
   ("s", "account", [("id", Val.int 2), ("email", Val.str "y")])]

/-- **C5** (witness): two concrete inserts then rollback restore the
`account` relation exactly. -/
theorem inserts_rollback_restores_witness :
    allOk engAccount NewTransaction rollbackReqs = true ∧
    (((rollback (runInserts engAccount NewTransaction rollbackReqs).1
        (runInserts engAccount NewTransaction rollbackReqs).2).1).core
      = engAccount.core ∧
    (rollback (runInserts engAccount NewTransaction rollbackReqs).1
        (runInserts engAccount NewTransaction rollbackReqs).2).2.changes
      = [] ∧
    (rollback (runInserts engAccount NewTransaction rollbackReqs).1
        (runInserts engAccount NewTransaction rollbackReqs).2).2.locks
      = []) :=
  ⟨by decide,
   inserts_rollback_restores engAccount NewTransaction rollbackReqs
     rfl rfl (by decide)⟩

/-- **C6**.  The column policy of `Insert`, attribute by attribute in
declaration order: a supplied value is domain-checked (failing with the
domain error when not convertible) and consumed from the values map;
an unsupplied attribute takes its default when present, else its
autoincrement counter (which is incremented), else the operation fails
with the missing-value error. -/
theorem insert_column_policy (relName : String) (a : Attribute)
    (as : List Attribute) (values : List (String × Val)) :
    (∀ v, kLookup values a.name = some v →
      (convertible v.kind a.domain = false →
        buildTuple relName (a :: as) values
          = (a :: as, values,
             .error (.domainMismatch relName a.name))) ∧
      (convertible v.kind a.domain = true →
        buildTuple relName (a :: as) values
          = (a :: (buildTuple relName as (eraseKey values a.name)).1,
             (buildTuple relName as (eraseKey values a.name)).2.1,
             (buildTuple relName as (eraseKey values a.name)).2.2.map
               (v :: ·)))) ∧
    (kLookup values a.name = none →
      (∀ d, a.defaultValue = some d →
        buildTuple relName (a :: as) values
          = (a :: (buildTuple relName as values).1,
             (buildTuple relName as values).2.1,
             (buildTuple relName as values).2.2.map (d :: ·))) ∧
      (a.defaultValue = none → a.autoIncrement = true →
        buildTuple relName (a :: as) values
          = ({ a with nextValue := a.nextValue + 1 }
               :: (buildTuple relName as values).1,
             (buildTuple relName as values).2.1,
             (buildTuple relName as values).2.2.map
               (Val.int a.nextValue :: ·))) ∧
      (a.defaultValue = none → a.autoIncrement = false →
        buildTuple relName (a :: as) values
          = (a :: as, values,
             .error (.missingValue relName a.name)))) := by
  constructor
  · intro v hv
    constructor
    · intro hc
      simp [buildTuple, hv, hc]
    · intro hc
      simp [buildTuple, hv, hc]
  · intro hn
    refine ⟨?_, ?_, ?_⟩
    · intro d hd
      simp [buildTuple, hn, hd]
    · intro hd hai
      simp [buildTuple, hn, hd, hai]
    · intro hd hai
      simp [buildTuple, hn, hd, hai]

/-- **C6** (witness): the supplied-and-convertible case evaluated at a
concrete input. -/
theorem insert_column_policy_witness :
    buildTuple "account" [aInt "id"] [("id", Val.int 7)]
      = ([aInt "id"], [], .ok [Val.int 7]) := by
  have h := ((insert_column_policy "account" (aInt "id") []
    [("id", Val.int 7)]).1 (Val.int 7) rfl).2 rfl
  simpa using h

/-- **C7** (counterexample).  A values map holding only a key that
names no declared attribute makes the Insert fail — but not with the
attribute-missing error: the per-attribute loop fails first on the
first declared attribute, which got no value, so the error is the
missing-value error.  The claim's "fails with an attribute-missing
error" does not hold as stated. -/
theorem unknown_key_error_preempted :
    (kLookup [("nonexisting", Val.str "x")] "nonexisting").isSome
      = true ∧
    (accountRel.attributes.all (fun a => a.name != "nonexisting"))
      = true ∧
    (insert engAccount NewTransaction "s" "account"
      [("nonexisting", Val.str "x")]).out
      = .error (.missingValue "account" "id") :=
  ⟨rfl, rfl, rfl⟩

/-- Aborting with an engine that differs from `e` only in attribute
metadata restores the observable state of `e` when the change log is
empty. -/
theorem core_abortT_attrs (e : Engine) (t : Transaction)
    (sch rel : String) (attrs' : List Attribute) (c : Err)
    (h : t.err = none) (h0 : t.changes = []) :
    ((abortT (e.updateRel sch rel (fun r₀ =>
      { r₀ with attributes := attrs' })) t c).1).core = e.core := by
  rw [abortT_eq c h]
  show (undoAllRev _ t.changes).core = e.core
  rw [h0]
  exact core_updateRel_attrs e sch rel attrs'

/-- An aborted transaction trivially satisfies the lock-superset
invariant: its change log is empty. -/
theorem lockInv_abortT (e : Engine) (t : Transaction) (c : Err)
    (h : t.err = none) : lockInv (abortT e t c).2 := by
  rw [abortT_eq c h]
  intro ch hc
  simp at hc

/-- **C7** (amended).  An Insert whose values map holds a key naming no
declared attribute always fails, and (when the transaction's change log
is empty) leaves the observable relation state — row lists and indexes —
unchanged; the error is the attribute-missing error whenever the
per-attribute loop completes (every declared attribute obtained a
value), while an earlier per-attribute failure reports its own error
instead. -/
theorem unknown_key_insert_fails (e : Engine) (t : Transaction)
    (sch rel : String) (vs : List (String × Val)) (s : Schema)
    (r : Relation) (k : String) (v : Val)
    (h : t.err = none) (h0 : t.changes = [])
    (hs : e.findSchema sch = some s) (hr : s.findRel rel = some r)
    (hk : kLookup vs k = some v)
    (hunk : ∀ a ∈ r.attributes, a.name ≠ k) :
    isOkE (insert e t sch rel vs).out = false ∧
    (insert e t sch rel vs).eng.core = e.core ∧
    (∀ attrs' vals' tup,
      buildTuple rel r.attributes vs = (attrs', vals', .ok tup) →
      ∃ k', (insert e t sch rel vs).out
        = .error (.attributeMissing k' rel)) := by
  have hl : (t.lock rel).err = none := by rw [lock_err]; exact h
  have hl0 : (t.lock rel).changes = [] := by rw [lock_changes]; exact h0
  have hpres := buildTuple_unknown_preserved rel r.attributes k hunk vs
  unfold insert
  rw [aborted_none h]
  simp only [hs, hr]
  rcases hbt : buildTuple rel r.attributes vs with ⟨attrs', vals', out⟩
  rw [hbt] at hpres
  cases out with
  | error err =>
    refine ⟨rfl, ?_, ?_⟩
    · exact core_abortT_attrs e (t.lock rel) sch rel attrs' err hl hl0
    · intro attrs'' vals'' tup heq
      simp at heq
  | ok tup' =>
    cases vals' with
    | nil => simp [kLookup, hk] at hpres
    | cons kv rest =>
      rcases kv with ⟨k₀, v₀⟩
      refine ⟨rfl, ?_, ?_⟩
      · exact core_abortT_attrs e (t.lock rel) sch rel attrs'
          (.attributeMissing k₀ rel) hl hl0
      · intro attrs'' vals'' tup heq
        exact ⟨k₀, rfl⟩

/-- **C7** (witness for the amended claim): an insert supplying both
declared columns plus an unknown key fails with the attribute-missing
error and leaves the relation's rows and indexes unchanged. -/
theorem unknown_key_insert_fails_witness :
    isOkE (insert engAccount NewTransaction "s" "account"
      [("id", Val.int 1), ("email", Val.str "e"),
       ("bogus", Val.int 2)]).out = false ∧
    (insert engAccount NewTransaction "s" "account"
      [("id", Val.int 1), ("email", Val.str "e"),
       ("bogus", Val.int 2)]).eng.core = engAccount.core ∧
    (∀ attrs' vals' tup,
      buildTuple "account" accountRel.attributes
        [("id", Val.int 1), ("email", Val.str "e"),
         ("bogus", Val.int 2)] = (attrs', vals', .ok tup) →
      ∃ k', (insert engAccount NewTransaction "s" "account"
        [("id", Val.int 1), ("email", Val.str "e"),
         ("bogus", Val.int 2)]).out
        = .error (.attributeMissing k' "account")) :=
  unknown_key_insert_fails engAccount NewTransaction "s" "account"
    [("id", Val.int 1), ("email", Val.str "e"), ("bogus", Val.int 2)]
    ⟨"s", [accountRel]⟩ accountRel "bogus" (Val.int 2)
    rfl rfl rfl rfl rfl (by decide)

/-- **C8** (counterexample).  The claim says Commit errors only when
the transaction was already *aborted*; but the source's Commit latches
"transaction committed" through the same field the abort path uses, so
a second Commit on a merely committed — never aborted — transaction
errors too. -/
theorem commit_after_commit_errors :
    (commit NewTransaction).tx.err = some .committed ∧
    (commit (commit NewTransaction).tx).out
      = .error (.terminated .committed) :=
  ⟨rfl, rfl⟩

/-- **C8** (amended).  Commit on an unlatched transaction returns the
number of accumulated change entries, empties the change log, releases
all locks, and latches "transaction committed"; Commit errors exactly
when the latch is already set — whether by an abort or by a previous
Commit — returning it wrapped and leaving the transaction unchanged. -/
theorem commit_behaviour (t : Transaction) :
    (t.err = none →
      (commit t).out = .ok t.changes.length ∧
      (commit t).tx.changes = [] ∧ (commit t).tx.locks = [] ∧
      (commit t).tx.err = some .committed) ∧
    (∀ c, t.err = some c →
      (commit t).out = .error (.terminated c) ∧ (commit t).tx = t) := by
  constructor
  · intro h
    simp [commit, aborted_none h]
  · intro c h
    simp [commit, aborted_some h]

/-- **C8** (witness). -/
theorem commit_behaviour_witness :
    (commit NewTransaction).out = .ok NewTransaction.changes.length ∧
    (commit NewTransaction).tx.changes = [] ∧
    (commit NewTransaction).tx.locks = [] ∧
    (commit NewTransaction).tx.err = some .committed :=
  (commit_behaviour NewTransaction).1 rfl

/-- **C9** (counterexample).  `DropRelation` pushes a `RelationChange`
touching the dropped relation but — unlike `CreateRelation` and
`Insert` — acquires no lock on it, so after a successful drop the
change log touches a relation the lock set does not contain. -/
theorem dropRelation_leaves_unlocked :
    (dropRelation engAccount NewTransaction "s" "account").out
      = .ok () ∧
    ((dropRelation engAccount NewTransaction "s" "account").tx.changes.map
      Change.touched) = [["account"]] ∧
    (dropRelation engAccount NewTransaction "s" "account").tx.locks
      = [] :=
  ⟨rfl, rfl, rfl⟩

/-- **C9** (amended).  `Insert` and `CreateRelation` preserve the
lock-superset invariant — they lock the touched relation before
logging the change (and an abort empties the log); `DropRelation` does
not, as the counterexample shows. -/
theorem insert_create_preserve_lockInv (e : Engine) (t : Transaction)
    (sch rel : String) (vs : List (String × Val))
    (sch₂ rel₂ : String) (attributes : List Attribute) (pk : List String)
    (hinv : lockInv t) :
    lockInv (insert e t sch rel vs).tx ∧
    lockInv (createRelation e t sch₂ rel₂ attributes pk).tx := by
  cases herr : t.err with
  | some c =>
    rw [insert_term sch rel vs herr,
      createRelation_term sch₂ rel₂ attributes pk herr]
    exact ⟨hinv, hinv⟩
  | none =>
    have hl : (t.lock rel).err = none := by rw [lock_err]; exact herr
    constructor
    · unfold insert
      rw [aborted_none herr]
      cases hsf : e.findSchema sch with
      | none =>
        simp only [hsf]
        exact lockInv_abortT e t _ herr
      | some s =>
        simp only [hsf]
        cases hrf : s.findRel rel with
        | none =>
          simp only [hrf]
          exact lockInv_abortT e t _ herr
        | some r =>
          simp only [hrf]
          rcases hbt : buildTuple rel r.attributes vs with
            ⟨attrs', vals', out⟩
          cases out with
          | error err =>
            exact lockInv_abortT _ (t.lock rel) err hl
          | ok tup =>
            cases vals' with
            | cons kv rest =>
              rcases kv with ⟨k₀, v₀⟩
              exact lockInv_abortT _ (t.lock rel) _ hl
            | nil =>
              intro c hc n hn
              show n ∈ (t.lock rel).locks
              rw [lock_changes] at hc
              rcases List.mem_append.mp hc with hold | hnew
              · exact lock_locks_mono rel (hinv c hold n hn)
              · have : c = Change.valueChange sch rel tup r.rows.length := by
                  simpa using hnew
                subst this
                have hn' : n = rel := by simpa [Change.touched] using hn
                rw [hn']
                exact mem_lock_self t rel
    · unfold createRelation
      rw [aborted_none herr]
      cases hcr : e.createRelation sch₂ rel₂ attributes pk with
      | error err =>
        simp only [hcr]
        exact lockInv_abortT e t err herr
      | ok p =>
        simp only [hcr]
        rcases p with ⟨e₁, r⟩
        intro c hc n hn
        show n ∈ (({ t with changes := t.changes
          ++ [Change.relationChange sch₂ (some r) none] }).lock
          r.name).locks
        have hc' : c ∈ t.changes
            ++ [Change.relationChange sch₂ (some r) none] := by
          simpa [lock_changes] using hc
        rcases List.mem_append.mp hc' with hold | hnew
        · exact lock_locks_mono r.name (hinv c hold n hn)
        · have : c = Change.relationChange sch₂ (some r) none := by
            simpa using hnew
          subst this
          have : n = r.name := by simpa [Change.touched] using hn
          subst this
          exact mem_lock_self _ r.name

/-- **C9** (witness): a concrete insert and a concrete create both
preserve the invariant starting from a fresh transaction. -/
theorem insert_create_preserve_lockInv_witness :
    lockInv (insert engAccount NewTransaction "s" "account"
      [("id", Val.int 3), ("email", Val.str "w")]).tx ∧
    lockInv (createRelation engAccount NewTransaction "s" "fresh"
      [aInt "x"] []).tx :=
  insert_create_preserve_lockInv engAccount NewTransaction "s" "account"
    [("id", Val.int 3), ("email", Val.str "w")] "s" "fresh" [aInt "x"] []
    (by intro c hc; simp [NewTransaction] at hc)

/-- **C10** (counterexample).  The claim says every key matching a
declared attribute is deleted from the caller's map whether the Insert
succeeds or fails.  But deletion happens attribute by attribute, and a
failure stops the loop: here the domain error on column `b` leaves the
matched key `"b"` still present in the caller's map after Insert
returns. -/
theorem failed_insert_leaves_matched_key :
    (rabRel.attributes.map Attribute.name) = ["a", "b"] ∧
    (insert engRab NewTransaction "s" "rab"
      [("a", Val.int 1), ("b", Val.str "x")]).vals
      = [("b", Val.str "x")] ∧
    isOkE (insert engRab NewTransaction "s" "rab"
      [("a", Val.int 1), ("b", Val.str "x")]).out = false :=
  ⟨rfl, rfl, rfl⟩

/-- **C10** (amended).  Insert consumes a matched key at the moment its
attribute is processed: after a successful Insert the caller's map is
empty (all matched keys were consumed and no unknown key was present);
keys matching no declared attribute are never deleted; a failure stops
the loop, so keys of attributes after the failure point survive (as
the counterexample shows). -/
theorem insert_consumes_matched_keys (e : Engine) (t : Transaction)
    (sch rel : String) (vs : List (String × Val)) (s : Schema)
    (r : Relation) (h : t.err = none)
    (hs : e.findSchema sch = some s) (hr : s.findRel rel = some r) :
    (∀ tup, (insert e t sch rel vs).out = .ok tup →
      (insert e t sch rel vs).vals = []) ∧
    (∀ k v, (∀ a ∈ r.attributes, a.name ≠ k) →
      kLookup vs k = some v →
      kLookup (insert e t sch rel vs).vals k = some v) := by
  unfold insert
  rw [aborted_none h]
  simp only [hs, hr]
  rcases hbt : buildTuple rel r.attributes vs with ⟨attrs', vals', out⟩
  cases out with
  | error err =>
    constructor
    · intro tup htup
      simp at htup
    · intro k v hunk hk
      have hpres := buildTuple_unknown_preserved rel r.attributes k hunk vs
      rw [hbt] at hpres
      show kLookup vals' k = some v
      rw [hpres, hk]
  | ok tup' =>
    cases vals' with
    | nil =>
      constructor
      · intro tup _
        rfl
      · intro k v hunk hk
        have hpres := buildTuple_unknown_preserved rel r.attributes k
          hunk vs
        rw [hbt] at hpres
        exact hpres.trans hk
    | cons kv rest =>
      rcases kv with ⟨k₀, v₀⟩
      constructor
      · intro tup htup
        simp at htup
      · intro k v hunk hk
        have hpres := buildTuple_unknown_preserved rel r.attributes k
          hunk vs
        rw [hbt] at hpres
        show kLookup ((k₀, v₀) :: rest) k = some v
        rw [hpres, hk]

/-- **C10** (witness): a successful insert consumes the whole map. -/
theorem insert_consumes_matched_keys_witness :
    (∀ tup, (insert engRab NewTransaction "s" "rab"
        [("a", Val.int 1), ("b", Val.int 2)]).out = .ok tup →
      (insert engRab NewTransaction "s" "rab"
        [("a", Val.int 1), ("b", Val.int 2)]).vals = []) ∧
    (∀ k v, (∀ a ∈ rabRel.attributes, a.name ≠ k) →
      kLookup [("a", Val.int 1), ("b", Val.int 2)] k = some v →
      kLookup (insert engRab NewTransaction "s" "rab"
        [("a", Val.int 1), ("b", Val.int 2)]).vals k = some v) :=
  insert_consumes_matched_keys engRab NewTransaction "s" "rab"
    [("a", Val.int 1), ("b", Val.int 2)] ⟨"s", [rabRel]⟩ rabRel
    rfl rfl rfl

end Agnostic
